import Mathlib

/-!
Verification of the request-mediation layer of the prompt-graphql-api
repository against its natural-language specification.

The repository ships the dashboard client (`pgql/dashboard/static/js`), whose
functions are embedded below directly from the JavaScript source.  The backend
core (application registry, admission controller, thread orchestrator, guarded
direct-query path) is reached by the dashboard only through its REST surface,
so those components are modelled from the specification text, as marked on
each definition.
-/

namespace PgqlApi

/- ## Application registry (spec section 4.2) -/

/-- Modelled from the spec: the per-application role, `read` or `write`. -/
inductive Role where
  | read
  | write
deriving DecidableEq, Repr

/-- Modelled from the spec: an application (tenant scope) record with
`app_id`, `api_key`, `allowed_tables`, `role` and `active` flag. -/
structure App where
  app_id : String
  api_key : String
  description : String
  allowed_tables : List String
  role : Role
  active : Bool
deriving DecidableEq, Repr

/-- Modelled from the spec: result of `authorize_table`. -/
inductive AuthzResult where
  | Allowed
  | Forbidden
deriving DecidableEq, Repr

/-- Modelled from the spec: `authorize_table(app, table_name, required_role)`
returns `Forbidden` if the table is outside `allowed_tables`, or if a `write`
is required while the app role is `read`, or if the app is inactive. -/
def authorize_table (app : App) (table_name : String) (required_role : Role) :
    AuthzResult :=
  if app.active = false then .Forbidden
  else if table_name ∉ app.allowed_tables then .Forbidden
  else if required_role = .write ∧ app.role = .read then .Forbidden
  else .Allowed

/-- Modelled from the spec: result of `resolve`. -/
inductive ResolveResult where
  | ok (app : App)
  | Unauthorized
deriving DecidableEq, Repr

/-- Modelled from the spec: the registry is the collection of application
records; `resolve(api_key)` looks the presented key up and answers a uniform
`Unauthorized` both when the key is absent and when the application is
disabled. -/
def resolve (registry : List App) (api_key : String) : ResolveResult :=
  match registry.find? (fun a => a.api_key = api_key) with
  | none => .Unauthorized
  | some app => if app.active then .ok app else .Unauthorized

theorem authorize_table_forbidden_of_table_not_allowed (app : App)
    (t : String) (r : Role) (h : t ∉ app.allowed_tables) :
    authorize_table app t r = .Forbidden := by
  simp [authorize_table, h]

theorem authorize_table_forbidden_of_role (app : App) (t : String)
    (h : app.role = .read) :
    authorize_table app t .write = .Forbidden := by
  simp [authorize_table, h]

theorem authorize_table_forbidden_of_inactive (app : App) (t : String)
    (r : Role) (h : app.active = false) :
    authorize_table app t r = .Forbidden := by
  simp [authorize_table, h]

theorem resolve_unauthorized_of_inactive (registry : List App) (key : String)
    (h : ∀ a ∈ registry, a.api_key = key → a.active = false) :
    resolve registry key = .Unauthorized := by
  unfold resolve
  cases hf : registry.find? (fun a => a.api_key = key) with
  | none => rfl
  | some app =>
      have hmem := List.mem_of_find?_eq_some hf
      have hkey : app.api_key = key := by
        have := List.find?_some hf
        simpa using this
      simp [h app hmem hkey]

/-- C1: `authorize_table` answers `Forbidden` whenever the table is outside
`allowed_tables`, or a `write` is required of a `read`-role app, or the app is
inactive; and when every record carrying the presented key is inactive, the
`resolve` step already rejects with `Unauthorized`, so a disabled application
can never pass `resolve` followed by `authorize_table`. -/
theorem C1_authorize_table_and_disabled_rejection
    (app : App) (t : String) (r : Role) (registry : List App) (key : String)
    (hcase : t ∉ app.allowed_tables ∨ (r = .write ∧ app.role = .read) ∨
      app.active = false)
    (hdis : ∀ a ∈ registry, a.api_key = key → a.active = false) :
    authorize_table app t r = .Forbidden ∧
      resolve registry key = .Unauthorized ∧
      (∀ a : App, a.active = false → ∀ t₀ r₀,
        authorize_table a t₀ r₀ = .Forbidden) := by
  refine ⟨?_, resolve_unauthorized_of_inactive registry key hdis, ?_⟩
  · rcases hcase with h | ⟨hw, hr⟩ | h
    · exact authorize_table_forbidden_of_table_not_allowed app t r h
    · subst hw; exact authorize_table_forbidden_of_role app t hr
    · exact authorize_table_forbidden_of_inactive app t r h
  · intro a ha t₀ r₀
    exact authorize_table_forbidden_of_inactive a t₀ r₀ ha

/-- Concrete instantiation of `C1_authorize_table_and_disabled_rejection`. -/
theorem C1_witness :
    authorize_table
      ⟨"app1", "k1", "", ["customers"], .read, false⟩ "orders" .read
      = .Forbidden ∧
      resolve [⟨"app1", "k1", "", ["customers"], .read, false⟩] "k1"
        = .Unauthorized ∧
      (∀ a : App, a.active = false → ∀ t₀ r₀,
        authorize_table a t₀ r₀ = .Forbidden) :=
  C1_authorize_table_and_disabled_rejection
    ⟨"app1", "k1", "", ["customers"], .read, false⟩ "orders" .read
    [⟨"app1", "k1", "", ["customers"], .read, false⟩] "k1"
    (by right; right; rfl)
    (by intro a ha _; simp at ha; rw [ha])

/- ## Key regeneration (spec section 4.2, C5) -/

/-- Modelled from the spec: result of `regenerate_key`. -/
inductive RegenResult where
  | ok (new_api_key : String) (registry : List App)
  | NotFound
deriving DecidableEq, Repr

/-- Modelled from the spec: the single-record rewrite performed by
`regenerate_key` — the matching application keeps all fields but carries the
fresh key. -/
def rekey (app_id new_key : String) (a : App) : App :=
  if a.app_id = app_id then { a with api_key := new_key } else a

/-- Modelled from the spec: `regenerate_key(app_id)` fails with `NotFound` for
an unknown id, and otherwise replaces the old key with the fresh one in a
single registry update, so the state after the call has exactly the new key
attached to the application. -/
def regenerate_key (registry : List App) (app_id new_key : String) :
    RegenResult :=
  if registry.any (fun a => a.app_id = app_id) then
    .ok new_key (registry.map (rekey app_id new_key))
  else .NotFound

theorem find?_map_rekey_new (registry : List App) (app : App)
    (new_key : String)
    (hmem : app ∈ registry)
    (hfresh : ∀ a ∈ registry, a.api_key ≠ new_key)
    (hid : ∀ a ∈ registry, a.app_id = app.app_id → a = app) :
    (registry.map (rekey app.app_id new_key)).find?
        (fun a => a.api_key = new_key)
      = some { app with api_key := new_key } := by
  induction registry with
  | nil => cases hmem
  | cons a l ih =>
      by_cases hsame : a.app_id = app.app_id
      · have ha : a = app := hid a (List.mem_cons_self a l) hsame
        subst ha
        simp [rekey]
      · have hne : a.api_key ≠ new_key := hfresh a (List.mem_cons_self a l)
        have hmem' : app ∈ l := by
          rcases List.mem_cons.mp hmem with h | h
          · exact absurd (h ▸ rfl) hsame
          · exact h
        have step := ih hmem'
          (fun b hb => hfresh b (List.mem_cons_of_mem a hb))
          (fun b hb => hid b (List.mem_cons_of_mem a hb))
        simp only [List.map_cons, List.find?_cons, rekey, if_neg hsame,
          decide_eq_false hne]
        exact step

/-- C5: immediately after `regenerate_key`, resolving the old API key answers
`Unauthorized`, resolving the returned new key answers the same application
(now carrying the new key), and both facts hold of the one registry the call
produced — the invalidation and activation are a single atomic update. -/
theorem C5_regenerate_key_atomic_swap
    (registry : List App) (app : App) (new_key : String)
    (hmem : app ∈ registry)
    (hactive : app.active = true)
    (hfresh : ∀ a ∈ registry, a.api_key ≠ new_key)
    (hold : ∀ a ∈ registry, a.api_key = app.api_key → a.app_id = app.app_id)
    (hid : ∀ a ∈ registry, a.app_id = app.app_id → a = app) :
    regenerate_key registry app.app_id new_key
        = .ok new_key (registry.map (rekey app.app_id new_key)) ∧
      resolve (registry.map (rekey app.app_id new_key)) app.api_key
        = .Unauthorized ∧
      resolve (registry.map (rekey app.app_id new_key)) new_key
        = .ok { app with api_key := new_key } := by
  refine ⟨?_, ?_, ?_⟩
  · unfold regenerate_key
    rw [if_pos]
    simp only [List.any_eq_true, decide_eq_true_eq]
    exact ⟨app, hmem, rfl⟩
  · unfold resolve
    have hnone : (registry.map (rekey app.app_id new_key)).find?
        (fun a => a.api_key = app.api_key) = none := by
      rw [List.find?_eq_none]
      intro b hb
      rcases List.mem_map.mp hb with ⟨a, ha, rfl⟩
      by_cases hsame : a.app_id = app.app_id
      · simp only [rekey, if_pos hsame]
        have : app.api_key ≠ new_key := hfresh app hmem
        simpa using fun h => this h.symm
      · simp only [rekey, if_neg hsame]
        intro hcontra
        exact hsame (hold a ha (by simpa using hcontra))
    rw [hnone]
  · unfold resolve
    rw [find?_map_rekey_new registry app new_key hmem hfresh hid]
    simp [hactive]

/-- Concrete instantiation of `C5_regenerate_key_atomic_swap`: one registered
app, its key regenerated from "oldkey" to "newkey". -/
theorem C5_witness :
    regenerate_key [⟨"app1", "oldkey", "", ["customers"], .read, true⟩]
        "app1" "newkey"
        = .ok "newkey"
            [⟨"app1", "newkey", "", ["customers"], .read, true⟩] ∧
      resolve [⟨"app1", "newkey", "", ["customers"], .read, true⟩] "oldkey"
        = .Unauthorized ∧
      resolve [⟨"app1", "newkey", "", ["customers"], .read, true⟩] "newkey"
        = .ok ⟨"app1", "newkey", "", ["customers"], .read, true⟩ := by
  have h := C5_regenerate_key_atomic_swap
    [⟨"app1", "oldkey", "", ["customers"], .read, true⟩]
    ⟨"app1", "oldkey", "", ["customers"], .read, true⟩ "newkey"
    (by simp) rfl (by decide) (by decide) (by decide)
  simpa [rekey] using h

/- ## Rate limiter (spec section 4.1, C2) -/

/-- Modelled from the spec: a token bucket with `rate` tokens per
`per_seconds` window, the current `available_tokens` and the time of the last
refill. -/
structure Bucket where
  rate : ℚ
  per_seconds : ℚ
  available_tokens : ℚ
  last_refill_at : ℚ
deriving DecidableEq, Repr

/-- Modelled from the spec: lazy refill at admission time,
`available = min(rate, available + elapsed_seconds * rate / per_seconds)`. -/
def refill (b : Bucket) (now : ℚ) : Bucket :=
  { b with
    available_tokens := min b.rate
      (b.available_tokens + (now - b.last_refill_at) * b.rate / b.per_seconds)
    last_refill_at := now }

/-- Modelled from the spec: the rate-limiting admission decision. -/
inductive AdmitDecision where
  | proceed
  | RateLimited
deriving DecidableEq, Repr

/-- Modelled from the spec: admission first refills lazily, then either
consumes exactly one token and proceeds, or — when fewer than one token is
available — rejects with `RateLimited` and consumes nothing. -/
def bucketAdmit (b : Bucket) (now : ℚ) : AdmitDecision × Bucket :=
  let b' := refill b now
  if 1 ≤ b'.available_tokens then
    (.proceed, { b' with available_tokens := b'.available_tokens - 1 })
  else
    (.RateLimited, b')

theorem refill_le_rate (b : Bucket) (now : ℚ) :
    (refill b now).available_tokens ≤ b.rate :=
  min_le_left _ _

theorem refill_nonneg (b : Bucket) (now : ℚ)
    (hlo : 0 ≤ b.available_tokens) (hrate : 0 ≤ b.rate)
    (hper : 0 < b.per_seconds) (hnow : b.last_refill_at ≤ now) :
    0 ≤ (refill b now).available_tokens := by
  refine le_min hrate ?_
  have helapsed : 0 ≤ now - b.last_refill_at := sub_nonneg.mpr hnow
  have : 0 ≤ (now - b.last_refill_at) * b.rate / b.per_seconds :=
    div_nonneg (mul_nonneg helapsed hrate) hper.le
  linarith

/-- C2: admission refills by exactly the spec's formula and never past `rate`;
with at least one refilled token the request proceeds and consumes exactly one
token, with fewer than one it is `RateLimited` and the bucket is left at the
refilled value (nothing consumed); in both cases `available_tokens` stays
within `[0, rate]`. -/
theorem C2_token_bucket_admission (b : Bucket) (now : ℚ)
    (hlo : 0 ≤ b.available_tokens)
    (hrate : 0 ≤ b.rate) (hper : 0 < b.per_seconds)
    (hnow : b.last_refill_at ≤ now) :
    (refill b now).available_tokens
        = min b.rate (b.available_tokens
            + (now - b.last_refill_at) * b.rate / b.per_seconds) ∧
      (refill b now).available_tokens ≤ b.rate ∧
      (1 ≤ (refill b now).available_tokens →
        bucketAdmit b now = (.proceed,
          { refill b now with
            available_tokens := (refill b now).available_tokens - 1 })) ∧
      ((refill b now).available_tokens < 1 →
        bucketAdmit b now = (.RateLimited, refill b now)) ∧
      0 ≤ (bucketAdmit b now).2.available_tokens ∧
      (bucketAdmit b now).2.available_tokens ≤ (bucketAdmit b now).2.rate := by
  have hle := refill_le_rate b now
  have hge := refill_nonneg b now hlo hrate hper hnow
  refine ⟨rfl, hle, ?_, ?_, ?_, ?_⟩
  · intro h
    simp only [bucketAdmit, if_pos h]
  · intro h
    simp only [bucketAdmit, if_neg (not_le.mpr h)]
  · by_cases h : 1 ≤ (refill b now).available_tokens
    · simp only [bucketAdmit, if_pos h]
      linarith
    · simp only [bucketAdmit, if_neg h]
      exact hge
  · by_cases h : 1 ≤ (refill b now).available_tokens
    · simp only [bucketAdmit, if_pos h]
      show (refill b now).available_tokens - 1 ≤ b.rate
      linarith
    · simp only [bucketAdmit, if_neg h]
      exact hle

/-- A concrete bucket: `rate = 5` per `10` seconds, `2` tokens available,
last refilled at time `0`. -/
def sampleBucket : Bucket :=
  { rate := 5, per_seconds := 10, available_tokens := 2, last_refill_at := 0 }

/-- Concrete instantiation of `C2_token_bucket_admission` on `sampleBucket`
admitted at time `1`. -/
theorem C2_witness :
    (refill sampleBucket 1).available_tokens
        = min sampleBucket.rate (sampleBucket.available_tokens
            + (1 - sampleBucket.last_refill_at) * sampleBucket.rate
                / sampleBucket.per_seconds) ∧
      (refill sampleBucket 1).available_tokens ≤ sampleBucket.rate ∧
      (1 ≤ (refill sampleBucket 1).available_tokens →
        bucketAdmit sampleBucket 1 = (.proceed,
          { refill sampleBucket 1 with
            available_tokens := (refill sampleBucket 1).available_tokens - 1 })) ∧
      ((refill sampleBucket 1).available_tokens < 1 →
        bucketAdmit sampleBucket 1 = (.RateLimited, refill sampleBucket 1)) ∧
      0 ≤ (bucketAdmit sampleBucket 1).2.available_tokens ∧
      (bucketAdmit sampleBucket 1).2.available_tokens
        ≤ (bucketAdmit sampleBucket 1).2.rate :=
  C2_token_bucket_admission sampleBucket 1 (by norm_num [sampleBucket])
    (by norm_num [sampleBucket]) (by norm_num [sampleBucket])
    (by norm_num [sampleBucket])

/- ## Admission controller: response cache (spec section 4.1, C3/C4) -/

/-- Modelled from the spec: the admission controller's shared state — the
response cache keyed by request fingerprint, the process-wide `hits` and
`misses` counters, and the rate-limit bucket. -/
structure AdmissionState where
  cache : List (String × String)
  hits : Nat
  misses : Nat
  bucket : Bucket
deriving DecidableEq, Repr

/-- Modelled from the spec: outcome of one mediated call through admission
control. -/
inductive AdmitOutcome where
  | served_from_cache (result : String)
  | rejected_RateLimited
  | proceeded (result : String)
deriving DecidableEq, Repr

/-- Modelled from the spec: one mediated call. The fingerprint is looked up
first and the `hits`/`misses` counters move on every lookup; a cache hit
short-circuits and returns the stored result without touching the bucket; a
miss consults the rate limiter, and a request that proceeds computes the
result upstream and stores it under its fingerprint. -/
def mediate (st : AdmissionState) (fp : String) (now : ℚ)
    (upstream : String → String) : AdmitOutcome × AdmissionState :=
  match st.cache.lookup fp with
  | some r => (.served_from_cache r, { st with hits := st.hits + 1 })
  | none =>
      let st1 := { st with misses := st.misses + 1 }
      match bucketAdmit st.bucket now with
      | (.proceed, b') =>
          let r := upstream fp
          (.proceeded r,
            { st1 with bucket := b', cache := (fp, r) :: st1.cache })
      | (.RateLimited, b') => (.rejected_RateLimited, { st1 with bucket := b' })

/-- Modelled from the spec: `clear_cache` empties the store and resets both
counters to zero; nothing else is touched. -/
def clear_cache (st : AdmissionState) : AdmissionState :=
  { st with cache := [], hits := 0, misses := 0 }

/-- C3: if a first mediated call for fingerprint `fp` proceeded to the
upstream and produced result `r`, then a second mediated call with the same
fingerprint (at any time, against any upstream behaviour) is served from the
cache with the identical result `r`, increments only the `hits` counter, and
leaves the rate-limit bucket untouched — no token is consumed. -/
theorem C3_repeat_fingerprint_served_from_cache
    (st st1 : AdmissionState) (fp : String) (t1 t2 : ℚ) (r : String)
    (up up2 : String → String)
    (h : mediate st fp t1 up = (.proceeded r, st1)) :
    mediate st1 fp t2 up2
        = (.served_from_cache r, { st1 with hits := st1.hits + 1 }) ∧
      (mediate st1 fp t2 up2).2.bucket = st1.bucket ∧
      (mediate st1 fp t2 up2).2.misses = st1.misses := by
  have hcache : st1.cache.lookup fp = some r := by
    unfold mediate at h
    cases hl : st.cache.lookup fp with
    | some r0 => rw [hl] at h; cases h
    | none =>
        rw [hl] at h
        cases hb : bucketAdmit st.bucket t1 with
        | mk d b' =>
            cases d with
            | proceed =>
                rw [hb] at h
                simp only [Prod.mk.injEq, AdmitOutcome.proceeded.injEq] at h
                rw [← h.2]
                simp [List.lookup, h.1]
            | RateLimited => rw [hb] at h; cases h
  refine ⟨?_, ?_, ?_⟩ <;> · unfold mediate; rw [hcache]

/-- Concrete instantiation of `C3_repeat_fingerprint_served_from_cache`: an
empty cache, a full sample bucket, and two calls with fingerprint "q". -/
theorem C3_witness :
    mediate ⟨[("q", "res")], 0, 1, (bucketAdmit sampleBucket 0).2⟩ "q" 1 id
      = (.served_from_cache "res",
          ⟨[("q", "res")], 1, 1, (bucketAdmit sampleBucket 0).2⟩) ∧
      (mediate ⟨[("q", "res")], 0, 1,
          (bucketAdmit sampleBucket 0).2⟩ "q" 1 id).2.bucket
        = (bucketAdmit sampleBucket 0).2 ∧
      (mediate ⟨[("q", "res")], 0, 1,
          (bucketAdmit sampleBucket 0).2⟩ "q" 1 id).2.misses = 1 :=
  C3_repeat_fingerprint_served_from_cache
    ⟨[], 0, 0, sampleBucket⟩
    ⟨[("q", "res")], 0, 1, (bucketAdmit sampleBucket 0).2⟩
    "q" 0 1 "res" (fun _ => "res") id
    (by norm_num [mediate, List.lookup, bucketAdmit, refill, sampleBucket])

/-- C4: `clear_cache` empties the store and zeroes both counters, so the next
call for any fingerprint — even one cached before — misses (it is never served
from cache and bumps `misses`); and `mediate` itself never evicts: any entry
cached before a mediated call is still cached, with the same value, after
it. -/
theorem C4_clear_cache_and_no_other_eviction (st : AdmissionState)
    (st0 : AdmissionState) (fp fp' : String) (now : ℚ)
    (up : String → String) (r' : String)
    (hcached : st0.cache.lookup fp' = some r') :
    (clear_cache st).cache = [] ∧
      (clear_cache st).hits = 0 ∧
      (clear_cache st).misses = 0 ∧
      (∀ res, (mediate (clear_cache st) fp now up).1
        ≠ .served_from_cache res) ∧
      (mediate (clear_cache st) fp now up).2.misses = 1 ∧
      (mediate st0 fp now up).2.cache.lookup fp' = some r' := by
  refine ⟨rfl, rfl, rfl, ?_, ?_, ?_⟩
  · intro res
    unfold mediate clear_cache
    cases hb : bucketAdmit st.bucket now with
    | mk d b' => cases d <;> simp [List.lookup, hb]
  · unfold mediate clear_cache
    cases hb : bucketAdmit st.bucket now with
    | mk d b' => cases d <;> simp [List.lookup, hb]
  · unfold mediate
    cases hl : st0.cache.lookup fp with
    | some r0 => simpa using hcached
    | none =>
        cases hb : bucketAdmit st0.bucket now with
        | mk d b' =>
            cases d with
            | proceed =>
                have hne : (fp' == fp) = false := by
                  refine beq_eq_false_iff_ne.mpr (fun hfe => ?_)
                  rw [hfe] at hcached
                  rw [hcached] at hl
                  exact Option.noConfusion hl
                simp [List.lookup, hb, hne, hcached]
            | RateLimited => simpa [hb] using hcached

/-- Concrete instantiation of `C4_clear_cache_and_no_other_eviction`. -/
theorem C4_witness :
    (clear_cache ⟨[("q", "res")], 3, 4, sampleBucket⟩).cache = [] ∧
      (clear_cache ⟨[("q", "res")], 3, 4, sampleBucket⟩).hits = 0 ∧
      (clear_cache ⟨[("q", "res")], 3, 4, sampleBucket⟩).misses = 0 ∧
      (∀ res,
        (mediate (clear_cache ⟨[("q", "res")], 3, 4, sampleBucket⟩)
            "q" 1 id).1
          ≠ .served_from_cache res) ∧
      (mediate (clear_cache ⟨[("q", "res")], 3, 4, sampleBucket⟩)
          "q" 1 id).2.misses = 1 ∧
      (mediate ⟨[("q", "res")], 3, 4, sampleBucket⟩
          "q" 1 id).2.cache.lookup "q" = some "res" :=
  C4_clear_cache_and_no_other_eviction
    ⟨[("q", "res")], 3, 4, sampleBucket⟩
    ⟨[("q", "res")], 3, 4, sampleBucket⟩
    "q" "q" 1 id "res" (by simp [List.lookup])

/- ## Thread orchestrator (spec section 4.3, C6/C7) -/

/-- Modelled from the spec: per-interaction status. -/
inductive Status where
  | processing
  | complete
  | error
  | cancelled
deriving DecidableEq, Repr

/-- Modelled from the spec: the three non-`processing` statuses are
terminal. -/
def Status.isTerminal : Status → Bool
  | .processing => false
  | .complete => true
  | .error => true
  | .cancelled => true

/-- Modelled from the spec: the status transitions the orchestrator admits,
`processing -> complete | error | cancelled` and nothing else. -/
inductive StatusStep : Status → Status → Prop where
  | toComplete : StatusStep .processing .complete
  | toError : StatusStep .processing .error
  | toCancelled : StatusStep .processing .cancelled

/-- Modelled from the spec: one request/response exchange within a thread. -/
structure Interaction where
  interaction_id : String
  status : Status
deriving DecidableEq, Repr

/-- Modelled from the spec: a thread is its ordered interaction sequence
(insertion order, so the latest interaction is the last element). -/
structure Thread where
  thread_id : String
  interactions : List Interaction
deriving DecidableEq, Repr

/-- Modelled from the spec: result of `cancel_thread`. -/
inductive CancelResult where
  | Cancelled
  | NoActiveInteraction
deriving DecidableEq, Repr

/-- Modelled from the spec: `cancel_thread` targets the single latest
interaction; it cancels it only when that interaction is still `processing`,
and otherwise is a no-op reported as `NoActiveInteraction`. -/
def cancel_thread (th : Thread) : CancelResult × Thread :=
  match th.interactions.getLast? with
  | some i =>
      if i.status = .processing then
        (.Cancelled,
          { th with interactions :=
              th.interactions.dropLast ++ [{ i with status := .cancelled }] })
      else (.NoActiveInteraction, th)
  | none => (.NoActiveInteraction, th)

theorem cancel_thread_terminal_noop (th : Thread) (j : Interaction)
    (hlast : th.interactions.getLast? = some j)
    (hterm : j.status.isTerminal = true) :
    cancel_thread th = (.NoActiveInteraction, th) := by
  have hne : j.status ≠ .processing := by
    intro hp
    rw [hp] at hterm
    cases hterm
  simp [cancel_thread, hlast, hne]

/-- C6: the only admissible status transitions go from `processing` to a
terminal status and no transition leaves a terminal status; cancelling a
thread whose latest interaction is `processing` yields `Cancelled` and leaves
the latest interaction `cancelled`, cancelling a thread whose latest
interaction is terminal is a no-op answering `NoActiveInteraction`, and hence
a second `cancel_thread` right after a successful one answers
`NoActiveInteraction`. -/
theorem C6_interaction_lifecycle (th : Thread) (i : Interaction)
    (hlast : th.interactions.getLast? = some i)
    (hproc : i.status = .processing) :
    (∀ s t : Status, StatusStep s t → s = .processing ∧ t.isTerminal = true) ∧
      (∀ s : Status, s.isTerminal = true → ∀ t, ¬ StatusStep s t) ∧
      (cancel_thread th).1 = .Cancelled ∧
      ((cancel_thread th).2).interactions.getLast?
        = some { i with status := .cancelled } ∧
      (∀ th' : Thread, ∀ j : Interaction,
        th'.interactions.getLast? = some j → j.status.isTerminal = true →
        cancel_thread th' = (.NoActiveInteraction, th')) ∧
      cancel_thread (cancel_thread th).2
        = (.NoActiveInteraction, (cancel_thread th).2) := by
  have hstep : ∀ s t : Status, StatusStep s t →
      s = .processing ∧ t.isTerminal = true := by
    intro s t hst
    cases hst <;> exact ⟨rfl, rfl⟩
  have hcancel : cancel_thread th = (.Cancelled,
      { th with interactions :=
          th.interactions.dropLast ++ [{ i with status := .cancelled }] }) := by
    simp [cancel_thread, hlast, hproc]
  have hlast2 : ((cancel_thread th).2).interactions.getLast?
      = some { i with status := .cancelled } := by
    rw [hcancel]
    exact List.getLast?_concat _
  refine ⟨hstep, ?_, ?_, hlast2, ?_, ?_⟩
  · intro s hs t hst
    have := (hstep s t hst).1
    rw [this] at hs
    cases hs
  · rw [hcancel]
  · intro th' j hl ht
    exact cancel_thread_terminal_noop th' j hl ht
  · exact cancel_thread_terminal_noop (cancel_thread th).2
      { i with status := .cancelled } hlast2 rfl

/-- Concrete instantiation of `C6_interaction_lifecycle`: a one-interaction
thread whose interaction is still processing. -/
theorem C6_witness :
    (∀ s t : Status, StatusStep s t → s = .processing ∧ t.isTerminal = true) ∧
      (∀ s : Status, s.isTerminal = true → ∀ t, ¬ StatusStep s t) ∧
      (cancel_thread ⟨"t1", [⟨"i1", .processing⟩]⟩).1 = .Cancelled ∧
      ((cancel_thread ⟨"t1", [⟨"i1", .processing⟩]⟩).2).interactions.getLast?
        = some ⟨"i1", .cancelled⟩ ∧
      (∀ th' : Thread, ∀ j : Interaction,
        th'.interactions.getLast? = some j → j.status.isTerminal = true →
        cancel_thread th' = (.NoActiveInteraction, th')) ∧
      cancel_thread (cancel_thread ⟨"t1", [⟨"i1", .processing⟩]⟩).2
        = (.NoActiveInteraction,
            (cancel_thread ⟨"t1", [⟨"i1", .processing⟩]⟩).2) :=
  C6_interaction_lifecycle ⟨"t1", [⟨"i1", .processing⟩]⟩ ⟨"i1", .processing⟩
    rfl rfl

/-- Modelled from the spec: the response surfaced by the polling loop — a
successful payload carrying the thread and interaction identifiers, the last
observed status, and how many polls were spent. `StillProcessing` is exactly
this payload with the non-terminal status `processing`. -/
structure PollResponse where
  thread_id : String
  interaction_id : String
  status : Status
  polls : Nat
deriving DecidableEq, Repr

/-- Modelled from the spec: the bounded polling loop in `start_thread` /
`continue_thread` — a fixed-interval retry with an explicit attempt ceiling,
each poll a single read of the upstream; when the ceiling is exhausted while
the upstream still reports `processing`, the loop returns a `StillProcessing`
response instead of looping on or raising. The ceiling is the structural
recursion measure, so the loop terminates for every upstream behaviour. -/
def poll_until_terminal (tid iid : String) (upstream : Nat → Status)
    (attempt : Nat) : Nat → PollResponse
  | 0 => ⟨tid, iid, .processing, attempt⟩
  | fuel + 1 =>
      if (upstream attempt).isTerminal then
        ⟨tid, iid, upstream attempt, attempt + 1⟩
      else poll_until_terminal tid iid upstream (attempt + 1) fuel

theorem poll_until_terminal_polls_le (tid iid : String)
    (upstream : Nat → Status) :
    ∀ fuel attempt,
      (poll_until_terminal tid iid upstream attempt fuel).polls
        ≤ attempt + fuel := by
  intro fuel
  induction fuel with
  | zero => intro attempt; simp [poll_until_terminal]
  | succ n ih =>
      intro attempt
      rw [poll_until_terminal]
      by_cases hs : (upstream attempt).isTerminal
      · simp only [hs, if_true]
        omega
      · simp only [Bool.not_eq_true] at hs
        simp only [hs, Bool.false_eq_true, if_false]
        have := ih (attempt + 1)
        omega

theorem poll_until_terminal_ids (tid iid : String) (upstream : Nat → Status) :
    ∀ fuel attempt,
      (poll_until_terminal tid iid upstream attempt fuel).thread_id = tid ∧
      (poll_until_terminal tid iid upstream attempt fuel).interaction_id
        = iid := by
  intro fuel
  induction fuel with
  | zero => intro attempt; simp [poll_until_terminal]
  | succ n ih =>
      intro attempt
      rw [poll_until_terminal]
      by_cases hs : (upstream attempt).isTerminal
      · simp [hs]
      · simp only [Bool.not_eq_true] at hs
        simp only [hs, Bool.false_eq_true, if_false]
        exact ih (attempt + 1)

theorem poll_until_terminal_exhaust (tid iid : String)
    (upstream : Nat → Status) :
    ∀ fuel attempt,
      (poll_until_terminal tid iid upstream attempt fuel).status.isTerminal
          = true ∨
        ((poll_until_terminal tid iid upstream attempt fuel).status
            = .processing ∧
          (poll_until_terminal tid iid upstream attempt fuel).polls
            = attempt + fuel) := by
  intro fuel
  induction fuel with
  | zero => intro attempt; right; simp [poll_until_terminal]
  | succ n ih =>
      intro attempt
      rw [poll_until_terminal]
      by_cases hs : (upstream attempt).isTerminal
      · simp [hs]
      · simp only [Bool.not_eq_true] at hs
        simp only [hs, Bool.false_eq_true, if_false]
        rcases ih (attempt + 1) with h | ⟨h1, h2⟩
        · left; exact h
        · right
          refine ⟨h1, ?_⟩
          omega

theorem poll_until_terminal_const_processing (tid iid : String) :
    ∀ fuel attempt,
      poll_until_terminal tid iid (fun _ => Status.processing) attempt fuel
        = ⟨tid, iid, .processing, attempt + fuel⟩ := by
  intro fuel
  induction fuel with
  | zero => intro attempt; simp [poll_until_terminal]
  | succ n ih =>
      intro attempt
      rw [poll_until_terminal]
      simp only [Status.isTerminal, Bool.false_eq_true, if_false]
      rw [ih (attempt + 1)]
      have harith : attempt + 1 + n = attempt + (n + 1) := by omega
      rw [harith]

/-- C7: the polling loop terminates for every upstream behaviour within the
attempt ceiling — it never polls more than `maxAttempts` times, always
delivers a `PollResponse` carrying the thread and interaction identifiers
whose status is either terminal or, exactly when the ceiling was exhausted,
the non-terminal `processing` (the `StillProcessing` success, not an error);
in particular an upstream that reports `processing` forever yields precisely
the `StillProcessing` response after `maxAttempts` polls. -/
theorem C7_polling_bounded_still_processing (tid iid : String)
    (upstream : Nat → Status) (maxAttempts : Nat) :
    (poll_until_terminal tid iid upstream 0 maxAttempts).polls
        ≤ maxAttempts ∧
      (poll_until_terminal tid iid upstream 0 maxAttempts).thread_id = tid ∧
      (poll_until_terminal tid iid upstream 0 maxAttempts).interaction_id
        = iid ∧
      ((poll_until_terminal tid iid upstream 0 maxAttempts).status.isTerminal
          = true ∨
        ((poll_until_terminal tid iid upstream 0 maxAttempts).status
            = .processing ∧
          (poll_until_terminal tid iid upstream 0 maxAttempts).polls
            = maxAttempts)) ∧
      poll_until_terminal tid iid (fun _ => Status.processing) 0 maxAttempts
        = ⟨tid, iid, .processing, maxAttempts⟩ := by
  refine ⟨?_, (poll_until_terminal_ids tid iid upstream maxAttempts 0).1,
    (poll_until_terminal_ids tid iid upstream maxAttempts 0).2, ?_, ?_⟩
  · simpa using poll_until_terminal_polls_le tid iid upstream maxAttempts 0
  · simpa using poll_until_terminal_exhaust tid iid upstream maxAttempts 0
  · simpa using poll_until_terminal_const_processing tid iid maxAttempts 0

/- ## Guarded direct-query path (spec section 4.4, C8) -/

/-- Modelled from the spec: the structured plan produced by the planner —
target entity, filters, sort and limit, never raw query text. -/
structure Plan where
  entity : String
  filters : List (String × String)
  sort : Option String
  limit : Nat
deriving DecidableEq, Repr

/-- Modelled from the spec: the operation type of a plan, mapped to the role
it requires — reads need `read`, mutating operations need `write`. -/
inductive OpType where
  | select
  | mutate
deriving DecidableEq, Repr

/-- Modelled from the spec: the role an operation type demands. -/
def opRequiredRole : OpType → Role
  | .select => .read
  | .mutate => .write

/-- Modelled from the spec: outcome of direct-query plan validation. -/
inductive ValidationOutcome where
  | rejected_Forbidden
  | validated (p : Plan)
deriving DecidableEq, Repr

/-- Modelled from the spec: validation rejects an entity outside the caller's
`allowed_tables` and an operation type inconsistent with the caller's role,
while an oversized `limit` is clamped to the configured ceiling rather than
rejected. -/
def validate_plan (app : App) (limit_ceiling : Nat) (op : OpType)
    (p : Plan) : ValidationOutcome :=
  if p.entity ∉ app.allowed_tables then .rejected_Forbidden
  else if opRequiredRole op = .write ∧ app.role = .read then
    .rejected_Forbidden
  else .validated { p with limit := min p.limit limit_ceiling }

/-- Modelled from the spec: execution issues exactly one bounded query for a
validated plan — it returns at most `limit` rows of the entity's data. -/
def execute_plan (data : List String) (p : Plan) : List String :=
  data.take p.limit

/-- C8: validation rejects every plan whose entity is outside the caller's
`allowed_tables` and every plan whose operation type needs `write` while the
caller's role is `read`; but a plan over an allowed entity with a compatible
operation whose limit exceeds the ceiling is NOT rejected — it is validated
with its limit clamped to the ceiling and then executes, returning at most
`ceiling` rows. -/
theorem C8_plan_validation_clamps_limit (app : App) (ceiling : Nat)
    (op : OpType) (p : Plan) (data : List String)
    (hentity : p.entity ∈ app.allowed_tables)
    (hrole : ¬(opRequiredRole op = .write ∧ app.role = .read))
    (hbig : ceiling ≤ p.limit) :
    (∀ q : Plan, q.entity ∉ app.allowed_tables →
      ∀ o, validate_plan app ceiling o q = .rejected_Forbidden) ∧
      (∀ q : Plan, q.entity ∈ app.allowed_tables → app.role = .read →
        validate_plan app ceiling .mutate q = .rejected_Forbidden) ∧
      validate_plan app ceiling op p
        = .validated { p with limit := ceiling } ∧
      (execute_plan data { p with limit := ceiling }).length ≤ ceiling := by
  refine ⟨?_, ?_, ?_, ?_⟩
  · intro q hq o
    simp [validate_plan, hq]
  · intro q hq hr
    simp [validate_plan, hq, opRequiredRole, hr]
  · have hmin : min p.limit ceiling = ceiling := min_eq_right hbig
    simp [validate_plan, hentity, hrole, hmin]
  · simp [execute_plan]

/-- Concrete instantiation of `C8_plan_validation_clamps_limit`: the spec's
end-to-end scenario — a `read` app allowed only "customers", a plan over
"customers" with limit 999999 against a ceiling of 100. -/
theorem C8_witness :
    (∀ q : Plan, q.entity ∉
        (⟨"app1", "k1", "", ["customers"], .read, true⟩ : App).allowed_tables →
      ∀ o, validate_plan ⟨"app1", "k1", "", ["customers"], .read, true⟩ 100 o q
        = .rejected_Forbidden) ∧
      (∀ q : Plan, q.entity ∈
          (⟨"app1", "k1", "", ["customers"], .read, true⟩ :
            App).allowed_tables →
        (⟨"app1", "k1", "", ["customers"], .read, true⟩ : App).role = .read →
        validate_plan ⟨"app1", "k1", "", ["customers"], .read, true⟩ 100
          .mutate q = .rejected_Forbidden) ∧
      validate_plan ⟨"app1", "k1", "", ["customers"], .read, true⟩ 100
          .select ⟨"customers", [], none, 999999⟩
        = .validated ⟨"customers", [], none, 100⟩ ∧
      (execute_plan ["r1", "r2"] ⟨"customers", [], none, 100⟩).length ≤ 100 :=
  C8_plan_validation_clamps_limit
    ⟨"app1", "k1", "", ["customers"], .read, true⟩ 100 .select
    ⟨"customers", [], none, 999999⟩ ["r1", "r2"]
    (by simp) (by simp [opRequiredRole]) (by norm_num)

/- ## Dashboard utilities (src: pgql/dashboard/static/js/utils.js, C9) -/

/-- From `escapeHtml` in `utils.js`: the function assigns the input to a
detached div's `textContent` and reads back `innerHTML`, i.e. it applies the
HTML fragment serialization of a text node.  That serialization replaces each
markup-significant character by its named entity — `&` by `&amp;`, `<` by
`&lt;`, `>` by `&gt;`, and U+00A0 by `&nbsp;` — and leaves every other
character unchanged. -/
def escapeHtmlChar (c : Char) : List Char :=
  if c = '&' then ['&', 'a', 'm', 'p', ';']
  else if c = '<' then ['&', 'l', 't', ';']
  else if c = '>' then ['&', 'g', 't', ';']
  else if c = Char.ofNat 160 then ['&', 'n', 'b', 's', 'p', ';']
  else [c]

/-- From `escapeHtml` in `utils.js`: the serialization applied to the whole
input string, character by character. -/
def escapeHtml (text : String) : String :=
  ⟨(text.data.map escapeHtmlChar).flatten⟩

/-- An HTML text-content parser for the fragment grammar the dashboard output
lives in: it accepts character data with the named entities `&amp;`, `&lt;`,
`&gt;`, `&nbsp;` and yields the decoded text, and it fails on any raw `<` or
`>` (tag openers) and on any `&` that does not open one of those entities.
A string this parser accepts therefore renders as inert text. -/
def parseHtmlText : List Char → Option (List Char)
  | [] => some []
  | '&' :: 'a' :: 'm' :: 'p' :: ';' :: r =>
      (parseHtmlText r).map (fun l => '&' :: l)
  | '&' :: 'l' :: 't' :: ';' :: r =>
      (parseHtmlText r).map (fun l => '<' :: l)
  | '&' :: 'g' :: 't' :: ';' :: r =>
      (parseHtmlText r).map (fun l => '>' :: l)
  | '&' :: 'n' :: 'b' :: 's' :: 'p' :: ';' :: r =>
      (parseHtmlText r).map (fun l => Char.ofNat 160 :: l)
  | c :: rest =>
      if c = '<' ∨ c = '>' ∨ c = '&' then none
      else (parseHtmlText rest).map (fun l => c :: l)

theorem parseHtmlText_cons_generic (c : Char) (rest : List Char)
    (hamp : c ≠ '&') :
    parseHtmlText (c :: rest)
      = if c = '<' ∨ c = '>' ∨ c = '&' then none
        else (parseHtmlText rest).map (fun l => c :: l) := by
  rw [parseHtmlText]
  · intro r h
    exact fun _ => hamp h
  · intro r h
    exact fun _ => hamp h
  · intro r h
    exact fun _ => hamp h
  · intro r h
    exact fun _ => hamp h

theorem parseHtmlText_escape (l : List Char) :
    parseHtmlText (l.map escapeHtmlChar).flatten = some l := by
  induction l with
  | nil => rfl
  | cons c l ih =>
      simp only [List.map_cons, List.flatten]
      by_cases h1 : c = '&'
      · subst h1
        simp [escapeHtmlChar, parseHtmlText, ih]
      · by_cases h2 : c = '<'
        · subst h2
          simp [escapeHtmlChar, parseHtmlText, ih]
        · by_cases h3 : c = '>'
          · subst h3
            simp [escapeHtmlChar, parseHtmlText, ih]
          · by_cases h4 : c = Char.ofNat 160
            · subst h4
              simp [escapeHtmlChar, parseHtmlText, ih]
            · rw [escapeHtmlChar, if_neg h1, if_neg h2, if_neg h3, if_neg h4]
              rw [List.singleton_append,
                parseHtmlText_cons_generic c _ h1,
                if_neg (by tauto), ih]
              rfl

theorem escapeHtmlChar_no_markup (c : Char) :
    ∀ d ∈ escapeHtmlChar c, d ≠ '<' ∧ d ≠ '>' := by
  intro d hd
  unfold escapeHtmlChar at hd
  split at hd
  · refine ⟨?_, ?_⟩ <;> · rintro rfl; simp at hd
  · split at hd
    · refine ⟨?_, ?_⟩ <;> · rintro rfl; simp at hd
    · split at hd
      · refine ⟨?_, ?_⟩ <;> · rintro rfl; simp at hd
      · split at hd
        · refine ⟨?_, ?_⟩ <;> · rintro rfl; simp at hd
        · simp only [List.mem_singleton] at hd
          subst hd
          constructor <;> assumption

/-- C9: `escapeHtml` round-trips — parsing its output as HTML text content
recovers exactly the input — and its output contains no raw `<` or `>`; the
strict parser's success also certifies that every `&` in the output opens a
complete named entity.  Dynamic values inserted into `innerHTML` through
`escapeHtml` therefore render as inert text, never as markup. -/
theorem C9_escapeHtml_roundtrip_inert (s : String) :
    parseHtmlText (escapeHtml s).data = some s.data ∧
      (∀ c ∈ (escapeHtml s).data, c ≠ '<' ∧ c ≠ '>') := by
  constructor
  · exact parseHtmlText_escape s.data
  · intro c hc
    have : c ∈ (s.data.map escapeHtmlChar).flatten := hc
    rw [List.mem_flatten] at this
    rcases this with ⟨part, hpart, hcin⟩
    rw [List.mem_map] at hpart
    rcases hpart with ⟨d, _, rfl⟩
    exact escapeHtmlChar_no_markup d c hcin

/- ## Dashboard active-flag handling (src: chat.js, llm-config.js, C10) -/

/-- From the dashboard: the application record as the dashboard reads it from
`GET /apps`; `active` may be absent (`none`, JavaScript `undefined`). -/
structure DashApp where
  app_id : String
  role : String
  active : Option Bool
deriving DecidableEq, Repr

/-- The JavaScript test `app.active !== false`, with `undefined` mapped to
`none`: only an explicit `false` fails it. -/
def activeNeqFalse : Option Bool → Bool
  | some false => false
  | _ => true

/-- From `loadChatApps` in `chat.js` (line 37): the chat application selector
includes an app exactly when `app.active !== false`. -/
def chatSelectorIncludes (app : DashApp) : Bool :=
  activeNeqFalse app.active

/-- From `loadApps` in `llm-config.js` (lines 157-159): the status badge shows
"Active" when `app.active !== false` and "Disabled" otherwise. -/
def appStatusBadge (app : DashApp) : String :=
  if activeNeqFalse app.active then "Active" else "Disabled"

/-- From `loadApps` in `llm-config.js` (line 187): the toggle action reads
"Disable" when `app.active !== false` and "Enable" otherwise. -/
def appToggleLabel (app : DashApp) : String :=
  if activeNeqFalse app.active then "Disable" else "Enable"

/-- C10: the three dashboard sites agree on one condition — the chat selector
includes an app, the apps list shows the "Active" badge, and it offers the
"Disable" action, each exactly when `app.active` is not the explicit `false`;
hence a record with the `active` field absent is treated as active
everywhere. -/
theorem C10_absent_active_defaults_to_enabled (app : DashApp) :
    (chatSelectorIncludes app = true ↔ app.active ≠ some false) ∧
      (appStatusBadge app = "Active" ↔ app.active ≠ some false) ∧
      (appToggleLabel app = "Disable" ↔ app.active ≠ some false) ∧
      (app.active = none →
        chatSelectorIncludes app = true ∧
          appStatusBadge app = "Active" ∧ appToggleLabel app = "Disable") := by
  have hmain : ∀ o : Option Bool,
      (activeNeqFalse o = true ↔ o ≠ some false) := by
    intro o
    match o with
    | none => simp [activeNeqFalse]
    | some true => simp [activeNeqFalse]
    | some false => simp [activeNeqFalse]
  refine ⟨hmain app.active, ?_, ?_, ?_⟩
  · unfold appStatusBadge
    by_cases h : activeNeqFalse app.active = true
    · rw [if_pos h]
      simpa [h] using hmain app.active
    · rw [if_neg h]
      constructor
      · intro hcon; exact absurd hcon (by decide)
      · intro hne
        exact absurd ((hmain app.active).mpr hne) h
  · unfold appToggleLabel
    by_cases h : activeNeqFalse app.active = true
    · rw [if_pos h]
      simpa [h] using hmain app.active
    · rw [if_neg h]
      constructor
      · intro hcon; exact absurd hcon (by decide)
      · intro hne
        exact absurd ((hmain app.active).mpr hne) h
  · intro hnone
    refine ⟨?_, ?_, ?_⟩ <;>
      simp [chatSelectorIncludes, appStatusBadge, appToggleLabel,
        activeNeqFalse, hnone]

end PgqlApi
